import Mathlib

/-!
Verification of the SOTA map generator (src/main.py).

The development shallowly embeds the PNG rendering path of the program:
the spherical-Mercator projection (lonlat_to_pixels), the zoom selector
(choose_zoom), the tile cache (get_tile), the padded bounding box, the
tile enumeration, and the canvas compositing geometry (output_to_png).

Numbers: Python floats are modelled by real numbers; the input coordinate
pairs coming from the JSON API are modelled as rationals (decimal literals)
embedded into the reals where the projection mathematics happens.
-/

namespace QrzMaps

/-! ### Python min/max over a non-empty list

`listMin l` / `listMax l` model Python's builtin `min(l)` / `max(l)` for a
non-empty list `l`; on the empty list (where Python raises ValueError) they
return the junk value `default`. -/

def listMin {α : Type} [LinearOrder α] [Inhabited α] : List α → α
  | [] => default
  | x :: xs => xs.foldl min x

def listMax {α : Type} [LinearOrder α] [Inhabited α] : List α → α
  | [] => default
  | x :: xs => xs.foldl max x

theorem foldl_min_le_init {α : Type} [LinearOrder α] :
    ∀ (xs : List α) (a : α), xs.foldl min a ≤ a := by
  intro xs
  induction xs with
  | nil => intro a; exact le_refl a
  | cons x xs ih =>
    intro a
    calc (x :: xs).foldl min a = xs.foldl min (min a x) := rfl
    _ ≤ min a x := ih (min a x)
    _ ≤ a := min_le_left a x

theorem foldl_min_le_mem {α : Type} [LinearOrder α] :
    ∀ (xs : List α) (a : α) (x : α), x ∈ xs → xs.foldl min a ≤ x := by
  intro xs
  induction xs with
  | nil => intro a x hx; cases hx
  | cons y ys ih =>
    intro a x hx
    rcases List.mem_cons.mp hx with h | h
    · subst h
      calc (x :: ys).foldl min a = ys.foldl min (min a x) := rfl
      _ ≤ min a x := foldl_min_le_init ys (min a x)
      _ ≤ x := min_le_right a x
    · exact ih (min a y) x h

theorem foldl_min_mem {α : Type} [LinearOrder α] :
    ∀ (xs : List α) (a : α), xs.foldl min a = a ∨ xs.foldl min a ∈ xs := by
  intro xs
  induction xs with
  | nil => intro a; exact Or.inl rfl
  | cons y ys ih =>
    intro a
    rcases ih (min a y) with h | h
    · rcases min_cases a y with ⟨hm, _⟩ | ⟨hm, _⟩
      · exact Or.inl (by rw [show (y :: ys).foldl min a = ys.foldl min (min a y) from rfl, h, hm])
      · exact Or.inr (by rw [show (y :: ys).foldl min a = ys.foldl min (min a y) from rfl, h, hm]; exact List.mem_cons_self y ys)
    · exact Or.inr (List.mem_cons_of_mem y h)

theorem init_le_foldl_max {α : Type} [LinearOrder α] :
    ∀ (xs : List α) (a : α), a ≤ xs.foldl max a := by
  intro xs
  induction xs with
  | nil => intro a; exact le_refl a
  | cons x xs ih =>
    intro a
    calc a ≤ max a x := le_max_left a x
    _ ≤ xs.foldl max (max a x) := ih (max a x)
    _ = (x :: xs).foldl max a := rfl

theorem mem_le_foldl_max {α : Type} [LinearOrder α] :
    ∀ (xs : List α) (a : α) (x : α), x ∈ xs → x ≤ xs.foldl max a := by
  intro xs
  induction xs with
  | nil => intro a x hx; cases hx
  | cons y ys ih =>
    intro a x hx
    rcases List.mem_cons.mp hx with h | h
    · subst h
      calc x ≤ max a x := le_max_right a x
      _ ≤ ys.foldl max (max a x) := init_le_foldl_max ys (max a x)
      _ = (x :: ys).foldl max a := rfl
    · exact ih (max a y) x h

theorem foldl_max_mem {α : Type} [LinearOrder α] :
    ∀ (xs : List α) (a : α), xs.foldl max a = a ∨ xs.foldl max a ∈ xs := by
  intro xs
  induction xs with
  | nil => intro a; exact Or.inl rfl
  | cons y ys ih =>
    intro a
    rcases ih (max a y) with h | h
    · rcases max_cases a y with ⟨hm, _⟩ | ⟨hm, _⟩
      · exact Or.inl (by rw [show (y :: ys).foldl max a = ys.foldl max (max a y) from rfl, h, hm])
      · exact Or.inr (by rw [show (y :: ys).foldl max a = ys.foldl max (max a y) from rfl, h, hm]; exact List.mem_cons_self y ys)
    · exact Or.inr (List.mem_cons_of_mem y h)

theorem listMin_le {α : Type} [LinearOrder α] [Inhabited α] {l : List α} {x : α}
    (hx : x ∈ l) : listMin l ≤ x := by
  cases l with
  | nil => cases hx
  | cons y ys =>
    rcases List.mem_cons.mp hx with h | h
    · subst h; exact foldl_min_le_init ys x
    · exact foldl_min_le_mem ys y x h

theorem le_listMax {α : Type} [LinearOrder α] [Inhabited α] {l : List α} {x : α}
    (hx : x ∈ l) : x ≤ listMax l := by
  cases l with
  | nil => cases hx
  | cons y ys =>
    rcases List.mem_cons.mp hx with h | h
    · subst h; exact init_le_foldl_max ys x
    · exact mem_le_foldl_max ys y x h

theorem listMin_mem {α : Type} [LinearOrder α] [Inhabited α] {l : List α}
    (hl : l ≠ []) : listMin l ∈ l := by
  cases l with
  | nil => exact absurd rfl hl
  | cons y ys =>
    rcases foldl_min_mem ys y with h | h
    · rw [show listMin (y :: ys) = ys.foldl min y from rfl, h]; exact List.mem_cons_self y ys
    · exact List.mem_cons_of_mem y h

theorem listMax_mem {α : Type} [LinearOrder α] [Inhabited α] {l : List α}
    (hl : l ≠ []) : listMax l ∈ l := by
  cases l with
  | nil => exact absurd rfl hl
  | cons y ys =>
    rcases foldl_max_mem ys y with h | h
    · rw [show listMax (y :: ys) = ys.foldl max y from rfl, h]; exact List.mem_cons_self y ys
    · exact List.mem_cons_of_mem y h

/-! ### Data model -/

/-- A point is a `(latitude, longitude)` pair, exactly as built on lines
97-103 of `src/main.py` from an activation record. -/
abbrev Point := ℚ × ℚ

/-- `lonlat_to_pixels` (src/main.py lines 67-75): convert lon/lat to global
pixel coordinates at a zoom level.  Python floats are modelled as reals. -/
noncomputable def lonlat_to_pixels (lon lat : ℝ) (zoom : ℕ) : ℝ × ℝ :=
  let siny0 : ℝ := Real.sin (lat * Real.pi / 180)
  let siny : ℝ := min (max siny0 (-0.9999)) 0.9999
  let scale : ℝ := 256 * 2 ^ zoom
  ((lon + 180) / 360 * scale,
   (0.5 - Real.log ((1 + siny) / (1 - siny)) / (4 * Real.pi)) * scale)

/-! ### choose_zoom (src/main.py lines 77-94) -/

/-- The x pixel coordinates of a point list at a zoom (the `xs` of line 83;
a point is `(lat, lon)` and `lonlat_to_pixels` takes `(lon, lat)`). -/
noncomputable def pixelXs (points : List Point) (zoom : ℕ) : List ℝ :=
  points.map fun p => (lonlat_to_pixels (p.2 : ℝ) (p.1 : ℝ) zoom).1

/-- The y pixel coordinates of a point list at a zoom (the `ys` of line 83). -/
noncomputable def pixelYs (points : List Point) (zoom : ℕ) : List ℝ :=
  points.map fun p => (lonlat_to_pixels (p.2 : ℝ) (p.1 : ℝ) zoom).2

/-- `width` of the pixel bounding box (lines 85-88). -/
noncomputable def bboxWidth (points : List Point) (zoom : ℕ) : ℝ :=
  listMax (pixelXs points zoom) - listMin (pixelXs points zoom)

/-- `height` of the pixel bounding box (lines 86-89). -/
noncomputable def bboxHeight (points : List Point) (zoom : ℕ) : ℝ :=
  listMax (pixelYs points zoom) - listMin (pixelYs points zoom)

/-- The test on line 91: `width <= TARGET_WIDTH and height <= TARGET_HEIGHT`
with `TARGET_WIDTH = 1200`, `TARGET_HEIGHT = 800`. -/
def fitsCanvas (points : List Point) (zoom : ℕ) : Prop :=
  bboxWidth points zoom ≤ 1200 ∧ bboxHeight points zoom ≤ 800

/-- The candidate zooms of `range(MAX_ZOOM, MIN_ZOOM - 1, -1)` on line 82,
with `MAX_ZOOM = 12`, `MIN_ZOOM = 4`: 12 down to 4, descending. -/
def zoomCandidates : List ℕ := [12, 11, 10, 9, 8, 7, 6, 5, 4]

open Classical in
/-- The loop body of `choose_zoom`: return the first candidate that fits,
else fall through to `return MIN_ZOOM` (line 94). -/
noncomputable def chooseZoomAux (points : List Point) : List ℕ → ℕ
  | [] => 4
  | z :: rest => if fitsCanvas points z then z else chooseZoomAux points rest

/-- `choose_zoom` (src/main.py lines 77-94).  The `padding` parameter of the
Python signature (default 0.1) is never read in the body; it is kept here to
mirror the signature. -/
noncomputable def choose_zoom (points : List Point) (padding : ℚ) : ℕ :=
  chooseZoomAux points zoomCandidates

theorem chooseZoomAux_fits_or_min (points : List Point) :
    ∀ l : List ℕ, fitsCanvas points (chooseZoomAux points l) ∨ chooseZoomAux points l = 4 := by
  intro l
  induction l with
  | nil => exact Or.inr rfl
  | cons z rest ih =>
    by_cases h : fitsCanvas points z
    · left; rw [chooseZoomAux, if_pos h]; exact h
    · rw [chooseZoomAux, if_neg h]; exact ih

theorem chooseZoomAux_mem_or_min (points : List Point) :
    ∀ l : List ℕ, chooseZoomAux points l ∈ l ∨ chooseZoomAux points l = 4 := by
  intro l
  induction l with
  | nil => exact Or.inr rfl
  | cons z rest ih =>
    by_cases h : fitsCanvas points z
    · left; rw [chooseZoomAux, if_pos h]; exact List.mem_cons_self z rest
    · rw [chooseZoomAux, if_neg h]
      rcases ih with h2 | h2
      · exact Or.inl (List.mem_cons_of_mem z h2)
      · exact Or.inr h2

theorem chooseZoomAux_none_above (points : List Point) :
    ∀ l : List ℕ, l.Pairwise (fun a b => b < a) →
      ∀ w ∈ l, chooseZoomAux points l < w → ¬ fitsCanvas points w := by
  intro l
  induction l with
  | nil => intro _ w hw; cases hw
  | cons z rest ih =>
    intro hl w hw hlt
    rcases List.pairwise_cons.mp hl with ⟨hz, hrest⟩
    by_cases h : fitsCanvas points z
    · rw [chooseZoomAux, if_pos h] at hlt
      rcases List.mem_cons.mp hw with h2 | h2
      · subst h2; exact absurd hlt (lt_irrefl w)
      · exact absurd hlt (not_lt.mpr (le_of_lt (hz w h2)))
    · rw [chooseZoomAux, if_neg h] at hlt
      rcases List.mem_cons.mp hw with h2 | h2
      · subst h2; exact h
      · exact ih hrest w h2 hlt

theorem chooseZoomAux_complete (points : List Point) :
    ∀ l : List ℕ, (∃ w ∈ l, fitsCanvas points w) →
      fitsCanvas points (chooseZoomAux points l) := by
  intro l
  induction l with
  | nil => intro h; rcases h with ⟨w, hw, _⟩; cases hw
  | cons z rest ih =>
    intro h
    by_cases hz : fitsCanvas points z
    · rw [chooseZoomAux, if_pos hz]; exact hz
    · rw [chooseZoomAux, if_neg hz]
      rcases h with ⟨w, hw, hfit⟩
      rcases List.mem_cons.mp hw with h2 | h2
      · subst h2; exact absurd hfit hz
      · exact ih ⟨w, h2, hfit⟩

theorem mem_zoomCandidates {w : ℕ} : w ∈ zoomCandidates ↔ 4 ≤ w ∧ w ≤ 12 := by
  simp only [zoomCandidates, List.mem_cons, List.not_mem_nil, or_false]
  omega

theorem zoomCandidates_desc : zoomCandidates.Pairwise (fun a b => b < a) := by
  rw [zoomCandidates]
  decide

/-! ### Claims C1, C10, C3 about choose_zoom -/

/-- C1: for every non-empty point list, `choose_zoom` returns a zoom in
[4, 12]; the returned zoom fits the 1200 by 800 pixel target unless it is the
fallback minimum 4; no zoom above the returned one fits (so the returned zoom
is the first, i.e. highest, fitting candidate of the descending scan); and if
any candidate zoom in [4, 12] fits then the returned one fits. -/
theorem choose_zoom_first_fitting (points : List Point) (padding : ℚ)
    (hne : points ≠ []) :
    (4 ≤ choose_zoom points padding ∧ choose_zoom points padding ≤ 12) ∧
    (fitsCanvas points (choose_zoom points padding) ∨ choose_zoom points padding = 4) ∧
    (∀ w : ℕ, choose_zoom points padding < w → w ≤ 12 → ¬ fitsCanvas points w) ∧
    ((∃ w : ℕ, 4 ≤ w ∧ w ≤ 12 ∧ fitsCanvas points w) →
      fitsCanvas points (choose_zoom points padding)) := by
  have hmem := chooseZoomAux_mem_or_min points zoomCandidates
  have hbounds : 4 ≤ choose_zoom points padding ∧ choose_zoom points padding ≤ 12 := by
    rw [choose_zoom]
    rcases hmem with h | h
    · exact mem_zoomCandidates.mp h
    · rw [h]; omega
  refine ⟨hbounds, ?_, ?_, ?_⟩
  · exact chooseZoomAux_fits_or_min points zoomCandidates
  · intro w hlt h12
    have hw : w ∈ zoomCandidates := mem_zoomCandidates.mpr ⟨by omega, h12⟩
    exact chooseZoomAux_none_above points zoomCandidates zoomCandidates_desc w hw hlt
  · intro ⟨w, h4, h12, hfit⟩
    exact chooseZoomAux_complete points zoomCandidates
      ⟨w, mem_zoomCandidates.mpr ⟨h4, h12⟩, hfit⟩

theorem choose_zoom_first_fitting_witness :
    (([((46 : ℚ), (7 : ℚ))] : List Point) ≠ []) ∧
    ((4 ≤ choose_zoom [((46 : ℚ), (7 : ℚ))] 0.1 ∧
        choose_zoom [((46 : ℚ), (7 : ℚ))] 0.1 ≤ 12) ∧
      (fitsCanvas [((46 : ℚ), (7 : ℚ))] (choose_zoom [((46 : ℚ), (7 : ℚ))] 0.1) ∨
        choose_zoom [((46 : ℚ), (7 : ℚ))] 0.1 = 4) ∧
      (∀ w : ℕ, choose_zoom [((46 : ℚ), (7 : ℚ))] 0.1 < w → w ≤ 12 →
        ¬ fitsCanvas [((46 : ℚ), (7 : ℚ))] w) ∧
      ((∃ w : ℕ, 4 ≤ w ∧ w ≤ 12 ∧ fitsCanvas [((46 : ℚ), (7 : ℚ))] w) →
        fitsCanvas [((46 : ℚ), (7 : ℚ))] (choose_zoom [((46 : ℚ), (7 : ℚ))] 0.1))) :=
  ⟨by simp, choose_zoom_first_fitting [((46 : ℚ), (7 : ℚ))] 0.1 (by simp)⟩

/-- C10: the `padding` parameter of `choose_zoom` is never read in its body,
so the result is the same for any two padding values; in particular the fit
test runs on the unpadded point bounding box. -/
theorem choose_zoom_padding_irrelevant (points : List Point) (p1 p2 : ℚ) :
    choose_zoom points p1 = choose_zoom points p2 := rfl

/-- The two activation points of the end-to-end scenario in the spec. -/
def c3Points : List Point := [((46 : ℚ), (7 : ℚ)), ((46.5 : ℚ), (7.5 : ℚ))]

theorem c3Points_width_at_12 : ¬ fitsCanvas c3Points 12 := by
  intro ⟨hw, _⟩
  have hx1 : (lonlat_to_pixels (((7 : ℚ) : ℝ)) (((46 : ℚ) : ℝ)) 12).1 ∈ pixelXs c3Points 12 := by
    simp [pixelXs, c3Points]
  have hx2 : (lonlat_to_pixels (((7.5 : ℚ) : ℝ)) (((46.5 : ℚ) : ℝ)) 12).1 ∈ pixelXs c3Points 12 := by
    simp [pixelXs, c3Points]
  have hmin := listMin_le hx1
  have hmax := le_listMax hx2
  rw [bboxWidth] at hw
  have hdiff : (lonlat_to_pixels (((7.5 : ℚ) : ℝ)) (((46.5 : ℚ) : ℝ)) 12).1 -
      (lonlat_to_pixels (((7 : ℚ) : ℝ)) (((46 : ℚ) : ℝ)) 12).1 = 1048576 / 720 := by
    simp only [lonlat_to_pixels]
    push_cast
    ring_nf
  have hsub := sub_le_sub hmax hmin
  rw [hdiff] at hsub
  have : (1048576 : ℝ) / 720 ≤ 1200 := le_trans hsub hw
  norm_num at this

/-- C3 counterexample: on the two scenario points (46.0, 7.0) and
(46.5, 7.5) the zoom selector does not select zoom 12, because at zoom 12
the projected bounding box is 1048576/720 ≈ 1456.4 pixels wide, above the
1200-pixel target. -/
theorem choose_zoom_scenario_not_twelve : choose_zoom c3Points 0.1 ≠ 12 := by
  intro h
  rw [choose_zoom] at h
  rcases chooseZoomAux_fits_or_min c3Points zoomCandidates with hf | h4
  · rw [h] at hf
    exact c3Points_width_at_12 hf
  · rw [h4] at h
    omega

/-- C3 amended: on the two scenario points the zoom selector selects a zoom
level of at most 11 (zoom 12 is rejected because the projected width exceeds
the 1200-pixel target). -/
theorem choose_zoom_scenario_le_eleven : choose_zoom c3Points 0.1 ≤ 11 := by
  have hne : choose_zoom c3Points 0.1 ≠ 12 := by
    intro h
    rw [choose_zoom] at h
    rcases chooseZoomAux_fits_or_min c3Points zoomCandidates with hf | h4
    · rw [h] at hf
      exact c3Points_width_at_12 hf
    · rw [h4] at h
      omega
  have hb : choose_zoom c3Points 0.1 ≤ 12 := by
    rw [choose_zoom]
    rcases chooseZoomAux_mem_or_min c3Points zoomCandidates with h | h
    · exact (mem_zoomCandidates.mp h).2
    · rw [h]; omega
  omega

/-! ### Claims C2 and C6 about the projection -/

theorem pixelX_eq (lon lat : ℝ) (zoom : ℕ) :
    (lonlat_to_pixels lon lat zoom).1 = (lon + 180) / 360 * (256 * 2 ^ zoom) := rfl

theorem pixelY_eq (lon lat : ℝ) (zoom : ℕ) :
    (lonlat_to_pixels lon lat zoom).2 =
      (0.5 - Real.log
          ((1 + min (max (Real.sin (lat * Real.pi / 180)) (-0.9999)) 0.9999) /
            (1 - min (max (Real.sin (lat * Real.pi / 180)) (-0.9999)) 0.9999)) /
          (4 * Real.pi)) * (256 * 2 ^ zoom) := rfl

theorem scale_pos (zoom : ℕ) : (0 : ℝ) < 256 * 2 ^ zoom := by positivity

theorem clamp_le_clamp {sa sb : ℝ} (h : sa ≤ sb) :
    min (max sa (-0.9999)) 0.9999 ≤ min (max sb (-0.9999)) 0.9999 :=
  min_le_min (max_le_max h (le_refl _)) (le_refl _)

theorem clamp_mem {s : ℝ} :
    (-0.9999 : ℝ) ≤ min (max s (-0.9999)) 0.9999 ∧
      min (max s (-0.9999)) 0.9999 ≤ (0.9999 : ℝ) :=
  ⟨le_min (le_max_right s (-0.9999)) (by norm_num), min_le_right _ _⟩

theorem pixelX_strictMono (zoom : ℕ) (lat0 : ℝ) :
    StrictMono (fun lon : ℝ => (lonlat_to_pixels lon lat0 zoom).1) := by
  intro a b hab
  simp only [pixelX_eq]
  apply mul_lt_mul_of_pos_right _ (scale_pos zoom)
  linarith

/-- Core monotonicity: the projected y pixel coordinate is antitone in the
latitude over [-90, 90] (it does not depend on the longitude argument). -/
theorem pixelY_le_pixelY {a b : ℝ} (zoom : ℕ) (lon1 lon2 : ℝ)
    (ha : -90 ≤ a) (hb : b ≤ 90) (hab : a ≤ b) :
    (lonlat_to_pixels lon2 b zoom).2 ≤ (lonlat_to_pixels lon1 a zoom).2 := by
  have hpi := Real.pi_pos
  have h1 : a * Real.pi / 180 ≤ b * Real.pi / 180 := by nlinarith
  have hlow : -(Real.pi / 2) ≤ a * Real.pi / 180 := by nlinarith
  have hhigh : b * Real.pi / 180 ≤ Real.pi / 2 := by nlinarith
  have hs : Real.sin (a * Real.pi / 180) ≤ Real.sin (b * Real.pi / 180) :=
    Real.sin_le_sin_of_le_of_le_pi_div_two hlow hhigh h1
  have hc := clamp_le_clamp hs
  have hma := clamp_mem (s := Real.sin (a * Real.pi / 180))
  have hmb := clamp_mem (s := Real.sin (b * Real.pi / 180))
  rw [pixelY_eq, pixelY_eq]
  apply mul_le_mul_of_nonneg_right _ (le_of_lt (scale_pos zoom))
  have hr : (1 + min (max (Real.sin (a * Real.pi / 180)) (-0.9999)) 0.9999) /
        (1 - min (max (Real.sin (a * Real.pi / 180)) (-0.9999)) 0.9999) ≤
      (1 + min (max (Real.sin (b * Real.pi / 180)) (-0.9999)) 0.9999) /
        (1 - min (max (Real.sin (b * Real.pi / 180)) (-0.9999)) 0.9999) := by
    rw [div_le_div_iff (by linarith [hma.2]) (by linarith [hmb.2])]
    nlinarith
  have hpos : 0 < (1 + min (max (Real.sin (a * Real.pi / 180)) (-0.9999)) 0.9999) /
      (1 - min (max (Real.sin (a * Real.pi / 180)) (-0.9999)) 0.9999) := by
    apply div_pos
    · linarith [hma.1]
    · linarith [hma.2]
  have hlog := Real.log_le_log hpos hr
  have hdiv : Real.log ((1 + min (max (Real.sin (a * Real.pi / 180)) (-0.9999)) 0.9999) /
        (1 - min (max (Real.sin (a * Real.pi / 180)) (-0.9999)) 0.9999)) / (4 * Real.pi) ≤
      Real.log ((1 + min (max (Real.sin (b * Real.pi / 180)) (-0.9999)) 0.9999) /
        (1 - min (max (Real.sin (b * Real.pi / 180)) (-0.9999)) 0.9999)) / (4 * Real.pi) :=
    (div_le_div_right (by positivity)).mpr hlog
  linarith

/-- The spec formulas of section 4.1, written from the spec text: scale,
x, the clamped siny and y. -/
noncomputable def spec_project (lon lat : ℝ) (zoom : ℕ) : ℝ × ℝ :=
  let scale : ℝ := 256 * 2 ^ zoom
  let siny : ℝ := min 0.9999 (max (-0.9999) (Real.sin (lat * Real.pi / 180)))
  ((lon + 180) / 360 * scale,
   (0.5 - Real.log ((1 + siny) / (1 - siny)) / (4 * Real.pi)) * scale)

/-- C2: for every longitude in [-180, 180], latitude in (-90, 90) and zoom,
`lonlat_to_pixels` returns exactly the x and y of the spec formulas
(scale = 256·2^zoom, x = (lon+180)/360·scale, siny clamped to
[-0.9999, 0.9999], y = (0.5 − ln((1+siny)/(1−siny))/(4π))·scale); it is a
pure total Lean function, so there are no error conditions. -/
theorem lonlat_to_pixels_matches_spec (lon lat : ℝ) (zoom : ℕ)
    (h1 : -180 ≤ lon) (h2 : lon ≤ 180) (h3 : -90 < lat) (h4 : lat < 90) :
    lonlat_to_pixels lon lat zoom = spec_project lon lat zoom := by
  simp [lonlat_to_pixels, spec_project, min_comm, max_comm]

theorem lonlat_to_pixels_matches_spec_witness :
    ((-180 : ℝ) ≤ 0 ∧ (0 : ℝ) ≤ 180 ∧ (-90 : ℝ) < 0 ∧ (0 : ℝ) < 90) ∧
      lonlat_to_pixels 0 0 3 = spec_project 0 0 3 :=
  ⟨⟨by norm_num, by norm_num, by norm_num, by norm_num⟩,
    lonlat_to_pixels_matches_spec 0 0 3 (by norm_num) (by norm_num) (by norm_num) (by norm_num)⟩

/-- C6: at a fixed zoom the x pixel coordinate is (strictly) monotonically
increasing in the longitude, the y pixel coordinate is monotonically
decreasing in the latitude over the projection domain [-90, 90], and at
latitude 0, longitude 0 the projection is exactly the world-canvas center
(128·2^zoom, 128·2^zoom). -/
theorem projection_monotone_and_center (zoom : ℕ) (lat0 lon0 : ℝ) :
    StrictMono (fun lon : ℝ => (lonlat_to_pixels lon lat0 zoom).1) ∧
    AntitoneOn (fun lat : ℝ => (lonlat_to_pixels lon0 lat zoom).2) (Set.Icc (-90) 90) ∧
    lonlat_to_pixels 0 0 zoom = (128 * 2 ^ zoom, 128 * 2 ^ zoom) := by
  refine ⟨pixelX_strictMono zoom lat0, ?_, ?_⟩
  · intro a ha b hb hab
    exact pixelY_le_pixelY zoom lon0 lon0 ha.1 hb.2 hab
  · have hx : (lonlat_to_pixels 0 0 zoom).1 = 128 * 2 ^ zoom := by
      rw [pixelX_eq]; ring
    have hclamp : min (max (Real.sin ((0 : ℝ) * Real.pi / 180)) (-0.9999)) 0.9999 = 0 := by
      norm_num
    have hy : (lonlat_to_pixels 0 0 zoom).2 = 128 * 2 ^ zoom := by
      rw [pixelY_eq, hclamp]
      norm_num
      ring
    exact Prod.ext hx hy

/-! ### Claim C7: the tile locator covers the points -/

/-- `min_lat` of src/main.py line 115: minimum latitude minus the 0.1 padding. -/
def paddedMinLat (points : List Point) : ℚ := listMin (points.map Prod.fst) - 0.1

/-- `max_lat` of src/main.py line 115: maximum latitude plus the 0.1 padding. -/
def paddedMaxLat (points : List Point) : ℚ := listMax (points.map Prod.fst) + 0.1

/-- `min_lon` of src/main.py line 116: minimum longitude minus the 0.1 padding. -/
def paddedMinLon (points : List Point) : ℚ := listMin (points.map Prod.snd) - 0.1

/-- `max_lon` of src/main.py line 116: maximum longitude plus the 0.1 padding. -/
def paddedMaxLon (points : List Point) : ℚ := listMax (points.map Prod.snd) + 0.1

/-- Modelled from the spec: the tile enumeration `mercantile.tiles` called on
src/main.py lines 124-130 is an external library whose code is not in the
repository.  Per section 4.3 of the spec, each corner of the geographic
bounding box is mapped to fractional tile coordinates at the given zoom
(global pixels divided by the 256-pixel tile size) and all integer tile
indices whose footprint intersects the box are enumerated: a contiguous
rectangle between the tile of the upper-left corner (min lon, max lat) and
the tile of the lower-right corner (max lon, min lat). -/
noncomputable def tiles_for_bbox (min_lon min_lat max_lon max_lat : ℝ) (zoom : ℕ) :
    Set (ℤ × ℤ) :=
  {t : ℤ × ℤ |
    ⌊(lonlat_to_pixels min_lon max_lat zoom).1 / 256⌋ ≤ t.1 ∧
    t.1 ≤ ⌊(lonlat_to_pixels max_lon min_lat zoom).1 / 256⌋ ∧
    ⌊(lonlat_to_pixels min_lon max_lat zoom).2 / 256⌋ ≤ t.2 ∧
    t.2 ≤ ⌊(lonlat_to_pixels max_lon min_lat zoom).2 / 256⌋}

theorem pixelX_le_pixelX {lon1 lon2 : ℝ} (zoom : ℕ) (lat1 lat2 : ℝ) (h : lon1 ≤ lon2) :
    (lonlat_to_pixels lon1 lat1 zoom).1 ≤ (lonlat_to_pixels lon2 lat2 zoom).1 := by
  rw [pixelX_eq, pixelX_eq]
  apply mul_le_mul_of_nonneg_right _ (le_of_lt (scale_pos zoom))
  linarith

theorem floor_div256_mono {x y : ℝ} (h : x ≤ y) : ⌊x / 256⌋ ≤ ⌊y / 256⌋ :=
  Int.floor_mono (by linarith)

theorem footprint_left (x : ℝ) : (⌊x / 256⌋ : ℝ) * 256 ≤ x := by
  have h := Int.floor_le (x / 256)
  linarith

theorem footprint_right (x : ℝ) : x < ((⌊x / 256⌋ : ℝ) + 1) * 256 := by
  have h := Int.lt_floor_add_one (x / 256)
  linarith

/-- The property claimed of the tile locator: the tile set of the padded
point bounding box is a contiguous rectangle of indices, and the projected
pixel position of every input point lies in the 256-pixel footprint of some
tile of the set. -/
noncomputable def tilesCoverPoints (points : List Point) (zoom : ℕ) : Prop :=
  (∃ x0 x1 y0 y1 : ℤ,
    tiles_for_bbox ((paddedMinLon points : ℚ) : ℝ) ((paddedMinLat points : ℚ) : ℝ)
        ((paddedMaxLon points : ℚ) : ℝ) ((paddedMaxLat points : ℚ) : ℝ) zoom =
      {t : ℤ × ℤ | x0 ≤ t.1 ∧ t.1 ≤ x1 ∧ y0 ≤ t.2 ∧ t.2 ≤ y1}) ∧
  ∀ p ∈ points,
    ∃ t ∈ tiles_for_bbox ((paddedMinLon points : ℚ) : ℝ) ((paddedMinLat points : ℚ) : ℝ)
        ((paddedMaxLon points : ℚ) : ℝ) ((paddedMaxLat points : ℚ) : ℝ) zoom,
      (t.1 : ℝ) * 256 ≤ (lonlat_to_pixels ((p.2 : ℚ) : ℝ) ((p.1 : ℚ) : ℝ) zoom).1 ∧
      (lonlat_to_pixels ((p.2 : ℚ) : ℝ) ((p.1 : ℚ) : ℝ) zoom).1 < ((t.1 : ℝ) + 1) * 256 ∧
      (t.2 : ℝ) * 256 ≤ (lonlat_to_pixels ((p.2 : ℚ) : ℝ) ((p.1 : ℚ) : ℝ) zoom).2 ∧
      (lonlat_to_pixels ((p.2 : ℚ) : ℝ) ((p.1 : ℚ) : ℝ) zoom).2 < ((t.2 : ℝ) + 1) * 256

/-- C7: for every non-empty point list whose latitudes lie in the valid
range [-89.9, 89.9] and every zoom, the tile set computed from the
0.1-degree-padded geographic bounding box is a contiguous rectangle in
(x, y) index space, and every point's projected pixel position at that zoom
falls within the footprint of some tile of the set. -/
theorem tiles_for_bbox_cover (points : List Point) (zoom : ℕ)
    (hne : points ≠ [])
    (hdom : ∀ p ∈ points, -(899 / 10 : ℚ) ≤ p.1 ∧ p.1 ≤ (899 / 10 : ℚ)) :
    tilesCoverPoints points zoom := by
  constructor
  · exact ⟨_, _, _, _, rfl⟩
  · intro p hp
    have hlats : p.1 ∈ points.map Prod.fst := List.mem_map_of_mem Prod.fst hp
    have hlons : p.2 ∈ points.map Prod.snd := List.mem_map_of_mem Prod.snd hp
    have hmaxlat_mem : listMax (points.map Prod.fst) ∈ points.map Prod.fst :=
      listMax_mem (by simpa using hne)
    have hminlat_mem : listMin (points.map Prod.fst) ∈ points.map Prod.fst :=
      listMin_mem (by simpa using hne)
    rcases List.mem_map.mp hmaxlat_mem with ⟨q, hq, hq1⟩
    rcases List.mem_map.mp hminlat_mem with ⟨r, hr, hr1⟩
    have hqb : q.1 ≤ (899 / 10 : ℚ) := (hdom q hq).2
    have hrb : -(899 / 10 : ℚ) ≤ r.1 := (hdom r hr).1
    have hpb := hdom p hp
    -- rational-level bounding box facts
    have hminlon : paddedMinLon points ≤ p.2 := by
      have := listMin_le hlons
      rw [paddedMinLon]
      have h01 : (0.1 : ℚ) = 1 / 10 := by norm_num
      linarith
    have hmaxlon : p.2 ≤ paddedMaxLon points := by
      have := le_listMax hlons
      rw [paddedMaxLon]
      linarith
    have hminlat : paddedMinLat points ≤ p.1 := by
      have := listMin_le hlats
      rw [paddedMinLat]
      linarith
    have hmaxlat : p.1 ≤ paddedMaxLat points := by
      have := le_listMax hlats
      rw [paddedMaxLat]
      linarith
    have hminlat90 : (-90 : ℚ) ≤ paddedMinLat points := by
      rw [paddedMinLat]
      rw [hr1] at hrb
      have h01 : (0.1 : ℚ) = 1 / 10 := by norm_num
      rw [h01]
      linarith
    have hmaxlat90 : paddedMaxLat points ≤ (90 : ℚ) := by
      rw [paddedMaxLat]
      rw [hq1] at hqb
      have h01 : (0.1 : ℚ) = 1 / 10 := by norm_num
      rw [h01]
      linarith
    -- the tile holding the point's pixel
    refine ⟨(⌊(lonlat_to_pixels ((p.2 : ℚ) : ℝ) ((p.1 : ℚ) : ℝ) zoom).1 / 256⌋,
             ⌊(lonlat_to_pixels ((p.2 : ℚ) : ℝ) ((p.1 : ℚ) : ℝ) zoom).2 / 256⌋),
      ⟨?_, ?_, ?_, ?_⟩, footprint_left _, footprint_right _, footprint_left _, footprint_right _⟩
    · exact floor_div256_mono (pixelX_le_pixelX zoom _ _ (by exact_mod_cast hminlon))
    · exact floor_div256_mono (pixelX_le_pixelX zoom _ _ (by exact_mod_cast hmaxlon))
    · apply floor_div256_mono
      apply pixelY_le_pixelY zoom _ _
        (by exact_mod_cast le_trans (by norm_num : (-90 : ℚ) ≤ -(899 / 10)) hpb.1)
        (by exact_mod_cast hmaxlat90) (by exact_mod_cast hmaxlat)
    · apply floor_div256_mono
      apply pixelY_le_pixelY zoom _ _ (by exact_mod_cast hminlat90)
        (by exact_mod_cast le_trans hpb.2 (by norm_num : (899 / 10 : ℚ) ≤ 90))
        (by exact_mod_cast hminlat)

theorem tiles_for_bbox_cover_witness :
    (([((46 : ℚ), (7 : ℚ))] : List Point) ≠ [] ∧
      (∀ p ∈ ([((46 : ℚ), (7 : ℚ))] : List Point),
        -(899 / 10 : ℚ) ≤ p.1 ∧ p.1 ≤ (899 / 10 : ℚ))) ∧
    tilesCoverPoints [((46 : ℚ), (7 : ℚ))] 10 :=
  ⟨⟨by simp, by
      intro p hp
      rw [List.mem_singleton] at hp
      subst hp
      norm_num⟩,
    tiles_for_bbox_cover [((46 : ℚ), (7 : ℚ))] 10 (by simp) (by
      intro p hp
      rw [List.mem_singleton] at hp
      subst hp
      norm_num)⟩

/-! ### Claim C4: canvas compositor geometry (src/main.py lines 132-162) -/

/-- A tile index `(x, y)` at the chosen zoom. -/
abbrev Tile := ℤ × ℤ

/-- `min_x = min(xs)` of line 135. -/
def tileMinX (ts : List Tile) : ℤ := listMin (ts.map Prod.fst)

/-- `max_x = max(xs)` of line 135. -/
def tileMaxX (ts : List Tile) : ℤ := listMax (ts.map Prod.fst)

/-- `min_y = min(ys)` of line 136. -/
def tileMinY (ts : List Tile) : ℤ := listMin (ts.map Prod.snd)

/-- `max_y = max(ys)` of line 136. -/
def tileMaxY (ts : List Tile) : ℤ := listMax (ts.map Prod.snd)

/-- `width = (max_x - min_x + 1) * TILE_SIZE` of line 140, `TILE_SIZE = 256`. -/
def canvasWidth (ts : List Tile) : ℤ := (tileMaxX ts - tileMinX ts + 1) * 256

/-- `height = (max_y - min_y + 1) * TILE_SIZE` of line 141. -/
def canvasHeight (ts : List Tile) : ℤ := (tileMaxY ts - tileMinY ts + 1) * 256

/-- The paste position `(px, py)` of lines 160-161. -/
def pasteOffset (ts : List Tile) (t : Tile) : ℤ × ℤ :=
  ((t.1 - tileMinX ts) * 256, (t.2 - tileMinY ts) * 256)

/-- The claimed compositor geometry: `tileMinX`/`tileMaxX`/`tileMinY`/
`tileMaxY` are the attained minimum and maximum tile indices of the set, the
canvas is exactly the tile span times 256 in each dimension, and every tile
is pasted at offset `((x − min_x)·256, (y − min_y)·256)`, whose 256-pixel
square stays inside the canvas. -/
def canvasLayout (ts : List Tile) : Prop :=
  (∀ t ∈ ts, tileMinX ts ≤ t.1 ∧ t.1 ≤ tileMaxX ts ∧ tileMinY ts ≤ t.2 ∧ t.2 ≤ tileMaxY ts) ∧
  tileMinX ts ∈ ts.map Prod.fst ∧ tileMaxX ts ∈ ts.map Prod.fst ∧
  tileMinY ts ∈ ts.map Prod.snd ∧ tileMaxY ts ∈ ts.map Prod.snd ∧
  canvasWidth ts = (tileMaxX ts - tileMinX ts + 1) * 256 ∧
  canvasHeight ts = (tileMaxY ts - tileMinY ts + 1) * 256 ∧
  ∀ t ∈ ts,
    pasteOffset ts t = ((t.1 - tileMinX ts) * 256, (t.2 - tileMinY ts) * 256) ∧
    0 ≤ (pasteOffset ts t).1 ∧ (pasteOffset ts t).1 + 256 ≤ canvasWidth ts ∧
    0 ≤ (pasteOffset ts t).2 ∧ (pasteOffset ts t).2 + 256 ≤ canvasHeight ts

/-- C4: for every non-empty tile list, the compositor allocates a canvas of
exactly `(max_x − min_x + 1)·256` by `(max_y − min_y + 1)·256` pixels, where
the mins and maxes are the true attained bounds of the tile set, and pastes
each tile `(x, y)` at pixel offset `((x − min_x)·256, (y − min_y)·256)`,
inside the canvas. -/
theorem canvas_layout_correct (ts : List Tile) (hne : ts ≠ []) : canvasLayout ts := by
  have hxs : ts.map Prod.fst ≠ [] := by simpa using hne
  have hys : ts.map Prod.snd ≠ [] := by simpa using hne
  refine ⟨?_, listMin_mem hxs, listMax_mem hxs, listMin_mem hys, listMax_mem hys,
    rfl, rfl, ?_⟩
  · intro t ht
    exact ⟨listMin_le (List.mem_map_of_mem Prod.fst ht),
      le_listMax (List.mem_map_of_mem Prod.fst ht),
      listMin_le (List.mem_map_of_mem Prod.snd ht),
      le_listMax (List.mem_map_of_mem Prod.snd ht)⟩
  · intro t ht
    have h1 : tileMinX ts ≤ t.1 := listMin_le (List.mem_map_of_mem Prod.fst ht)
    have h2 : t.1 ≤ tileMaxX ts := le_listMax (List.mem_map_of_mem Prod.fst ht)
    have h3 : tileMinY ts ≤ t.2 := listMin_le (List.mem_map_of_mem Prod.snd ht)
    have h4 : t.2 ≤ tileMaxY ts := le_listMax (List.mem_map_of_mem Prod.snd ht)
    refine ⟨rfl, ?_, ?_, ?_, ?_⟩
    · simp only [pasteOffset]; nlinarith
    · simp only [pasteOffset, canvasWidth]; nlinarith
    · simp only [pasteOffset]; nlinarith
    · simp only [pasteOffset, canvasHeight]; nlinarith

theorem canvas_layout_correct_witness :
    (([((3 : ℤ), (5 : ℤ)), ((4 : ℤ), (5 : ℤ))] : List Tile) ≠ []) ∧
    canvasLayout [((3 : ℤ), (5 : ℤ)), ((4 : ℤ), (5 : ℤ))] :=
  ⟨by simp, canvas_layout_correct [((3 : ℤ), (5 : ℤ)), ((4 : ℤ), (5 : ℤ))] (by simp)⟩

/-! ### Claim C5: tile fetcher/cache (src/main.py lines 51-65) -/

/-- A tile index key `(z, x, y)`, the hierarchical cache path
`tile_cache/z/x/y.png`. -/
abbrev TileKey := ℕ × ℤ × ℤ

/-- `get_tile` (src/main.py lines 51-65) as a state machine over the on-disk
cache.  The cache is a key-to-image association list ("the files under
tile_cache/"); `server` models the HTTP tile endpoint, already decoded to
image content.  Images are modelled by their decoded content: PNG is a
lossless format, so `Image.save`/`Image.open` round-trips the content, and
`convert("RGB")` on the cache-hit path preserves the pixel content.
The result is the returned image, the new cache state, and the number of
network requests issued: 0 on a cache hit (the `path.exists()` branch,
line 53-54), 1 on a miss (the `session.get` of line 59). -/
def get_tile {Img : Type} (server : TileKey → Img) (k : TileKey)
    (cache : List (TileKey × Img)) : Img × List (TileKey × Img) × ℕ :=
  match cache.lookup k with
  | some img => (img, cache, 0)
  | none => (server k, (k, server k) :: cache, 1)

/-- C5: two successive `get_tile` calls with the same key issue at most one
network request in total, the second call is always answered from the cache
with no network call, and the second call returns the same image content as
the first. -/
theorem get_tile_idempotent {Img : Type} (server : TileKey → Img) (k : TileKey)
    (cache : List (TileKey × Img)) :
    (get_tile server k (get_tile server k cache).2.1).2.2 = 0 ∧
    (get_tile server k cache).2.2 + (get_tile server k (get_tile server k cache).2.1).2.2 ≤ 1 ∧
    (get_tile server k (get_tile server k cache).2.1).1 = (get_tile server k cache).1 := by
  cases h : cache.lookup k with
  | some img => simp [get_tile, h]
  | none => simp [get_tile, h, List.lookup]

/-! ### Claims C8 and C9: the PNG rendering pipeline (src/main.py lines 96-199) -/

/-- The tuple order `key=lambda p: (p[0], p[1])` of line 108: lexicographic
on (latitude, longitude). -/
def ptLE : Point → Point → Prop := fun p q => p.1 < q.1 ∨ (p.1 = q.1 ∧ p.2 ≤ q.2)

instance : DecidableRel ptLE := fun p q =>
  inferInstanceAs (Decidable (p.1 < q.1 ∨ (p.1 = q.1 ∧ p.2 ≤ q.2)))

instance : IsTotal Point ptLE := by
  constructor
  intro a b
  rcases lt_trichotomy a.1 b.1 with h | h | h
  · exact Or.inl (Or.inl h)
  · rcases le_total a.2 b.2 with h2 | h2
    · exact Or.inl (Or.inr ⟨h, h2⟩)
    · exact Or.inr (Or.inr ⟨h.symm, h2⟩)
  · exact Or.inr (Or.inl h)

instance : IsTrans Point ptLE := by
  constructor
  intro a b c hab hbc
  have h1 : a.1 < b.1 ∨ (a.1 = b.1 ∧ a.2 ≤ b.2) := hab
  have h2 : b.1 < c.1 ∨ (b.1 = c.1 ∧ b.2 ≤ c.2) := hbc
  rcases h1 with h1 | ⟨h1, h1b⟩ <;> rcases h2 with h2 | ⟨h2, h2b⟩
  · exact Or.inl (lt_trans h1 h2)
  · exact Or.inl (h2 ▸ h1)
  · exact Or.inl (h1 ▸ h2)
  · exact Or.inr ⟨h1.trans h2, le_trans h1b h2b⟩

instance : IsAntisymm Point ptLE := by
  constructor
  intro a b hab hba
  have h1 : a.1 < b.1 ∨ (a.1 = b.1 ∧ a.2 ≤ b.2) := hab
  have h2 : b.1 < a.1 ∨ (b.1 = a.1 ∧ b.2 ≤ a.2) := hba
  rcases h1 with h1 | ⟨h1, h1b⟩
  · rcases h2 with h2 | ⟨h2, h2b⟩
    · exact absurd (lt_trans h1 h2) (lt_irrefl _)
    · rw [h2] at h1; exact absurd h1 (lt_irrefl _)
  · rcases h2 with h2 | ⟨h2, h2b⟩
    · rw [h1] at h2; exact absurd h2 (lt_irrefl _)
    · exact Prod.ext h1 (le_antisymm h1b h2b)

/-- `points = sorted(points, key=lambda p: (p[0], p[1]))` of line 108. -/
def sortPoints (points : List Point) : List Point := List.insertionSort ptLE points

theorem sortPoints_perm_eq {l1 l2 : List Point} (hp : l1.Perm l2) :
    sortPoints l1 = sortPoints l2 :=
  List.eq_of_perm_of_sorted
    ((List.perm_insertionSort ptLE l1).trans (hp.trans (List.perm_insertionSort ptLE l2).symm))
    (List.sorted_insertionSort ptLE l1) (List.sorted_insertionSort ptLE l2)

/-- Python `int()`: truncation toward zero. -/
noncomputable def pyInt (x : ℝ) : ℤ := if 0 ≤ x then ⌊x⌋ else -⌊-x⌋

/-- The data fully determining the PNG output of `output_to_png`: the chosen
zoom, the tile set, the canvas dimensions, and the marker positions in
canvas pixels in drawing order. -/
structure RenderPlan where
  zoom : ℕ
  tileSet : Set (ℤ × ℤ)
  width : ℤ
  height : ℤ
  markers : List (ℤ × ℤ)

/-- The body of `output_to_png` (src/main.py lines 110-183) after the
emptiness check and the sort: padded bounding box (lines 113-116), zoom
choice (line 118), tile enumeration (lines 124-130, spec-modelled
`tiles_for_bbox`), canvas size (lines 135-141), and marker positions
(lines 167-171, `int(gx - min_x * TILE_SIZE)`). -/
noncomputable def renderBody (pts : List Point) : RenderPlan :=
  let zoom := choose_zoom pts 0.1
  let min_lon : ℝ := ((paddedMinLon pts : ℚ) : ℝ)
  let min_lat : ℝ := ((paddedMinLat pts : ℚ) : ℝ)
  let max_lon : ℝ := ((paddedMaxLon pts : ℚ) : ℝ)
  let max_lat : ℝ := ((paddedMaxLat pts : ℚ) : ℝ)
  let x0 : ℤ := ⌊(lonlat_to_pixels min_lon max_lat zoom).1 / 256⌋
  let x1 : ℤ := ⌊(lonlat_to_pixels max_lon min_lat zoom).1 / 256⌋
  let y0 : ℤ := ⌊(lonlat_to_pixels min_lon max_lat zoom).2 / 256⌋
  let y1 : ℤ := ⌊(lonlat_to_pixels max_lon min_lat zoom).2 / 256⌋
  ⟨zoom,
   tiles_for_bbox min_lon min_lat max_lon max_lat zoom,
   (x1 - x0 + 1) * 256,
   (y1 - y0 + 1) * 256,
   pts.map fun p =>
     (pyInt ((lonlat_to_pixels ((p.2 : ℚ) : ℝ) ((p.1 : ℚ) : ℝ) zoom).1 - (x0 : ℝ) * 256),
      pyInt ((lonlat_to_pixels ((p.2 : ℚ) : ℝ) ((p.1 : ℚ) : ℝ) zoom).2 - (y0 : ℝ) * 256))⟩

/-- `output_to_png` (src/main.py lines 96-199) up to the render plan: raise
`RuntimeError("No activation coordinates found")` when the point list is
empty (lines 105-106), otherwise sort the points (line 108) and render. -/
noncomputable def renderPlan (points : List Point) : Except String RenderPlan :=
  if points = [] then Except.error "No activation coordinates found"
  else Except.ok (renderBody (sortPoints points))

/-- The tile requests a render outcome performs: none when it failed. -/
def requestedTiles : Except String RenderPlan → Set (ℤ × ℤ)
  | Except.error _ => ∅
  | Except.ok p => p.tileSet

/-- C8: on the empty activation list the PNG path fails with the explicit
empty-data error before any geometry or tile lookup, and requests no tile. -/
theorem renderPlan_empty_error :
    renderPlan [] = Except.error "No activation coordinates found" ∧
    requestedTiles (renderPlan []) = ∅ := by
  constructor
  · rw [renderPlan, if_pos rfl]
  · rw [renderPlan, if_pos rfl, requestedTiles]

/-- C9: the render plan is invariant under permutations of the input
records: the points are sorted by (latitude, longitude) before the zoom
choice, the tile computation and the marker drawing, so the output does not
depend on the input order. -/
theorem renderPlan_perm_invariant (l1 l2 : List Point) (hp : l1.Perm l2) :
    renderPlan l1 = renderPlan l2 := by
  by_cases h1 : l1 = []
  · subst h1
    have h2 : l2 = [] := List.perm_nil.mp hp.symm
    subst h2
    rfl
  · have h2 : l2 ≠ [] := by
      intro h
      subst h
      exact h1 (List.perm_nil.mp hp)
    rw [renderPlan, renderPlan, if_neg h1, if_neg h2, sortPoints_perm_eq hp]

theorem renderPlan_perm_invariant_witness :
    (([((46 : ℚ), (7 : ℚ)), ((46.5 : ℚ), (7.5 : ℚ))] : List Point).Perm
      [((46.5 : ℚ), (7.5 : ℚ)), ((46 : ℚ), (7 : ℚ))]) ∧
    renderPlan [((46 : ℚ), (7 : ℚ)), ((46.5 : ℚ), (7.5 : ℚ))] =
      renderPlan [((46.5 : ℚ), (7.5 : ℚ)), ((46 : ℚ), (7 : ℚ))] :=
  ⟨List.Perm.swap ((46.5 : ℚ), (7.5 : ℚ)) ((46 : ℚ), (7 : ℚ)) [],
   renderPlan_perm_invariant _ _ (List.Perm.swap ((46.5 : ℚ), (7.5 : ℚ)) ((46 : ℚ), (7 : ℚ)) [])⟩

end QrzMaps
